import Mathlib

/-!
Verification development for the WhatsApp chat-transcript parser
(`src/utils/parser.ts` of FerhatCengz/whatsapp-sohbet-yedegi-goster).

The TypeScript source is shallowly embedded below.  JavaScript strings are
modelled as `List Char` (one entry per code point; UTF-16 code units are made
explicit only where the source reads `charCodeAt`, namely in the colour hash).
JavaScript numbers that stay integral are modelled as exact `Int`/`Nat`
(float arithmetic on integers below 2^53 is exact, which covers every value
reachable here for inputs of realistic size); `NaN`/`undefined` values that
can arise in date parsing are modelled as `none : Option Int`, since the two
behave identically in every context they reach (`year < 100` is false for
both, and both poison the `Date` into an invalid one).

The three regular expressions of the source are embedded as deterministic
matchers.  Each determinization step is justified in a comment at the
definition: whenever a greedy quantifier's maximal munch is kept without
backtracking, the character sets of the quantifier and of its follower are
disjoint, so giving characters back can never create a new match.
-/

set_option maxHeartbeats 4000000
set_option maxRecDepth 100000

namespace WaParse

/-- JavaScript whitespace: the character set matched by the regex class
`\s` and stripped by `String.prototype.trim` (WhiteSpace ∪ LineTerminator):
TAB LF VT FF CR SP NBSP U+1680 U+2000..U+200A U+2028 U+2029 U+202F U+205F
U+3000 U+FEFF. -/
def isJsWs (c : Char) : Bool :=
  c == '\t' || c == '\n' || c.toNat == 11 || c.toNat == 12 || c == '\r' ||
  c == ' ' || c.toNat == 0xA0 || c.toNat == 0x1680 ||
  (decide (0x2000 ≤ c.toNat) && decide (c.toNat ≤ 0x200A)) ||
  c.toNat == 0x2028 || c.toNat == 0x2029 || c.toNat == 0x202F ||
  c.toNat == 0x205F || c.toNat == 0x3000 || c.toNat == 0xFEFF

/-- JavaScript line terminators: the characters NOT matched by `.` in a
regex without the `s` flag. -/
def isLineTerm (c : Char) : Bool :=
  c == '\n' || c == '\r' || c.toNat == 0x2028 || c.toNat == 0x2029

/-- A character matched by `.` (no `s` flag). -/
def isDotChar (c : Char) : Bool := !isLineTerm c

def isDigitCh (c : Char) : Bool :=
  decide (48 ≤ c.toNat) && decide (c.toNat ≤ 57)

/-- `line.replace(/[‎‏]/g, '')`. -/
def removeBidi (l : List Char) : List Char :=
  l.filter (fun c => !(c.toNat == 0x200E || c.toNat == 0x200F))

/-- `String.prototype.trim` (strips `isJsWs` from both ends). -/
def trimJs (l : List Char) : List Char :=
  ((l.dropWhile isJsWs).reverse.dropWhile isJsWs).reverse

/-- `String.prototype.split(sep)` for a one-character separator; JavaScript
returns at least one (possibly empty) piece: `"".split(x) = [""]`. -/
def splitOnChar (sep : Char) : List Char → List (List Char)
  | [] => [[]]
  | c :: cs =>
    let r := splitOnChar sep cs
    if c == sep then [] :: r
    else
      match r with
      | [] => [[c]]
      | h :: t => (c :: h) :: t

def startsWithL : List Char → List Char → Bool
  | [], _ => true
  | _ :: _, [] => false
  | p :: ps, c :: cs => p == c && startsWithL ps cs

/-- `String.prototype.includes` (substring containment). -/
def containsSeq (pat : List Char) : List Char → Bool
  | [] => startsWithL pat []
  | c :: t => startsWithL pat (c :: t) || containsSeq pat t

/-- ASCII lower-casing of one character; the `/i` regex flag is modelled by
folding only ASCII letters, which is exact here because every case-carrying
literal in the three source regexes is an ASCII letter (JavaScript's
canonicalisation never folds a non-ASCII character onto an ASCII one for
non-unicode regexes). -/
def toLowAscii (c : Char) : Char :=
  if decide (65 ≤ c.toNat) && decide (c.toNat ≤ 90) then Char.ofNat (c.toNat + 32) else c

/-- Case-insensitive literal-prefix test; the pattern is given lower-case. -/
def ciStarts : List Char → List Char → Bool
  | [], _ => true
  | _ :: _, [] => false
  | p :: ps, c :: cs => p == toLowAscii c && ciStarts ps cs

/-- One character of `String.prototype.toLowerCase`, restricted to the
alphabets that actually occur in the source's phrase table: ASCII letters and
the Turkish uppercase letters (with the JavaScript expansion of dotted
capital I to i followed by U+0307).  Characters outside this set are kept;
the parser only lower-cases to search for the five all-lowercase
ASCII/Turkish phrases below, for which this restriction is exact. -/
def jsToLowerChar (c : Char) : List Char :=
  if decide (65 ≤ c.toNat) && decide (c.toNat ≤ 90) then [Char.ofNat (c.toNat + 32)]
  else if c == 'Ö' then ['ö']
  else if c == 'Ü' then ['ü']
  else if c == 'Ç' then ['ç']
  else if c == 'Ğ' then ['ğ']
  else if c == 'Ş' then ['ş']
  else if c == 'İ' then ['i', Char.ofNat 0x0307]
  else [c]

def jsToLower (l : List Char) : List Char := (l.map jsToLowerChar).flatten

def digitsVal (l : List Char) : Nat :=
  l.foldl (fun a c => 10 * a + (c.toNat - 48)) 0

/-- JavaScript `Number(s)` on the strings reachable from the date splitter:
a nonempty all-digit string is its value; every other reachable string
(it then contains a `/` or is empty) is `NaN`, modelled as `none`. -/
def jsNumDigits (l : List Char) : Option Int :=
  if !l.isEmpty && l.all isDigitCh then some (digitsVal l) else none

/-! ### The message-start regex

`/^\[(\d{1,2}[./]\d{1,2}[./]\d{2,4})\s+(ÖÖ|ÖS|AM|PM)?\s*(\d{1,2}:\d{2}:\d{2})\]\s+(.*?):\s+(.*)/`

Embedded as a deterministic matcher.  Determinization notes:
* each bounded digit quantifier is followed by a non-digit requirement
  (`[./]`, `\s`, `:`, `]`), so the maximal digit run decides: a run longer
  than the upper bound can never match, a run within bounds must be taken
  whole;
* every `\s+`/`\s*` is followed by a non-whitespace requirement or by a
  group that can absorb anything, so maximal munch is exact;
* the marker alternatives start with non-whitespace, non-digit letters, so
  if a marker prefix is present, the marker-less alternative of `(...)?`
  fails as well (the time must start with a digit); hence first-prefix-wins;
* the lazy `(.*?)` before `:` takes the first position whose character is
  `:` followed by a `\s` character, scanning only over `.`-matchable
  characters; trailing `(.*)` always succeeds, so no further backtracking
  occurs. -/

structure MsgGroups where
  dateStr : List Char
  amPm : Option (List Char)
  timeStr : List Char
  senderRaw : List Char
  content : List Char
deriving DecidableEq, Repr

/-- `\d{lo,hi}` followed by a non-digit requirement. -/
def takeDigits (lo hi : Nat) (s : List Char) : Option (List Char × List Char) :=
  let d := s.takeWhile isDigitCh
  if lo ≤ d.length ∧ d.length ≤ hi then some (d, s.drop d.length) else none

def expectChar (c : Char) : List Char → Option (List Char)
  | [] => none
  | x :: r => if x == c then some r else none

def takeSep : List Char → Option (Char × List Char)
  | [] => none
  | c :: r => if c == '.' || c == '/' then some (c, r) else none

/-- `\s+` (maximal). -/
def takeWs1 (s : List Char) : Option (List Char) :=
  let w := s.takeWhile isJsWs
  if w.isEmpty then none else some (s.drop w.length)

/-- `\s*` (maximal). -/
def skipWs (s : List Char) : List Char := s.dropWhile isJsWs

def markers : List (List Char) := [['Ö', 'Ö'], ['Ö', 'S'], ['A', 'M'], ['P', 'M']]

/-- `(ÖÖ|ÖS|AM|PM)?` — at most one alternative can prefix-match. -/
def takeMarker (s : List Char) : Option (List Char) × List Char :=
  match markers.find? (fun m => startsWithL m s) with
  | some m => (some m, s.drop m.length)
  | none => (none, s)

/-- `(.*?):(?=\s)` — the lazy sender group: first `:` followed by
whitespace, scanning only `.`-matchable characters. Returns the sender and
the rest after the `:`. -/
def findColonWs : List Char → Option (List Char × List Char)
  | [] => none
  | c :: cs =>
    if c == ':' && (match cs with | d :: _ => isJsWs d | [] => false) then
      some ([], cs)
    else if isDotChar c then
      match findColonWs cs with
      | some (sd, r) => some (c :: sd, r)
      | none => none
    else none

/-- `\d{2}` followed by a literal. -/
def takeDigits2 (s : List Char) : Option (List Char × List Char) :=
  match s with
  | a :: b :: r => if isDigitCh a && isDigitCh b then some ([a, b], r) else none
  | _ => none

def msgStartMatch (line : List Char) : Option MsgGroups :=
  match expectChar '[' line with
  | none => none
  | some r0 =>
  match takeDigits 1 2 r0 with
  | none => none
  | some a1 =>
  match takeSep a1.2 with
  | none => none
  | some b1 =>
  match takeDigits 1 2 b1.2 with
  | none => none
  | some a2 =>
  match takeSep a2.2 with
  | none => none
  | some b2 =>
  match takeDigits 2 4 b2.2 with
  | none => none
  | some a3 =>
  match takeWs1 a3.2 with
  | none => none
  | some r6 =>
  match takeDigits 1 2 (skipWs (takeMarker r6).2) with
  | none => none
  | some hh =>
  match expectChar ':' hh.2 with
  | none => none
  | some r10 =>
  match takeDigits2 r10 with
  | none => none
  | some mm =>
  match expectChar ':' mm.2 with
  | none => none
  | some r12 =>
  match takeDigits2 r12 with
  | none => none
  | some ss =>
  match expectChar ']' ss.2 with
  | none => none
  | some r14 =>
  match takeWs1 r14 with
  | none => none
  | some r15 =>
  match findColonWs r15 with
  | none => none
  | some sd =>
  match takeWs1 sd.2 with
  | none => none
  | some r17 =>
  some { dateStr := a1.1 ++ b1.1 :: (a2.1 ++ b2.1 :: a3.1),
         amPm := (takeMarker r6).1,
         timeStr := hh.1 ++ ':' :: (mm.1 ++ ':' :: ss.1),
         senderRaw := sd.1,
         content := r17.takeWhile isDotChar }

/-! ### The attachment regexes

`/([a-zA-Z0-9_\-\.\s]+\.(jpg|jpeg|png|mp4|opus|mp3|pdf|webp|mov))\s+(\(file attached\)|\(dosya eklendi\))/i`
`/<([a-zA-Z0-9_\-\.\s]+\.(jpg|jpeg|png|mp4|opus|mp3|pdf|webp|mov))\s+eklendi>/i`

Unanchored: the leftmost matching start position wins; within one start, the
greedy class run backtracks over the position of the literal `\.`, from the
longest class prefix downwards, and the extension alternation is tried in
source order at each dot. -/

def attachClassChar (c : Char) : Bool :=
  isDigitCh c || (decide (97 ≤ c.toNat) && decide (c.toNat ≤ 122)) ||
  (decide (65 ≤ c.toNat) && decide (c.toNat ≤ 90)) ||
  c == '_' || c == '-' || c == '.' || isJsWs c

def attachExts : List (List Char) :=
  ["jpg", "jpeg", "png", "mp4", "opus", "mp3", "pdf", "webp", "mov"].map String.data

def wsLen (s : List Char) : Nat := (s.takeWhile isJsWs).length

/-- Tail of the parenthesised form after the extension:
`\s+(\(file attached\)|\(dosya eklendi\))` — `\s+` maximal is exact since
the literals start with `(`, which is not whitespace. -/
def oldTail (r : List Char) : Bool :=
  let w := wsLen r
  w != 0 && (ciStarts "(file attached)".data (r.drop w) ||
             ciStarts "(dosya eklendi)".data (r.drop w))

/-- Tail of the angle-bracket form after the extension: `\s+eklendi>`. -/
def newTail (r : List Char) : Bool :=
  let w := wsLen r
  let r2 := r.drop w
  w != 0 && ciStarts "eklendi".data r2 &&
    (match r2.drop 7 with | c :: _ => c == '>' | [] => false)

/-- The extension alternation: try each alternative in order; on success of
the prefix, the given tail matcher must accept what follows, otherwise the
next alternative is tried (plain backtracking). Returns the matched
extension length. -/
def tryExts (tail : List Char → Bool) (rest : List Char) : Option Nat :=
  attachExts.findSome? fun e =>
    if ciStarts e rest && tail (rest.drop e.length) then some e.length else none

/-- Backtracking over the position of the literal `\.`: positions
`n, n-1, ..., 1` are tried (greedy class run first).  The caller passes
`n = m - 1` where `m` is the maximal class-run length; the dot cannot sit at
`m` or beyond because `.` is itself a class character. Returns the full
capture (class part, dot and extension). -/
def goDots (s : List Char) (tail : List Char → Bool) : Nat → Option (List Char)
  | 0 => none
  | e + 1 =>
    if s.get? (e + 1) == some '.' then
      match tryExts tail (s.drop (e + 2)) with
      | some k => some (s.take (e + 2 + k))
      | none => goDots s tail e
    else goDots s tail e

def matchOldAt (s : List Char) : Option (List Char) :=
  let m := (s.takeWhile attachClassChar).length
  if m == 0 then none else goDots s oldTail (m - 1)

def matchNewAt (s : List Char) : Option (List Char) :=
  match s with
  | '<' :: t =>
    let m := (t.takeWhile attachClassChar).length
    if m == 0 then none else goDots t newTail (m - 1)
  | _ => none

/-- `content.match(attachmentRegexOld)`, group 1 (leftmost start wins). -/
def jsMatchOld : List Char → Option (List Char)
  | [] => none
  | c :: t =>
    match matchOldAt (c :: t) with
    | some f => some f
    | none => jsMatchOld t

/-- `content.match(attachmentRegexNew)`, group 1 (leftmost start wins). -/
def jsMatchNew : List Char → Option (List Char)
  | [] => none
  | c :: t =>
    match matchNewAt (c :: t) with
    | some f => some f
    | none => jsMatchNew t

/-! ### Sender colours (`getRandomColor`) -/

def colors : List String :=
  ["bg-red-500", "bg-orange-500", "bg-amber-500", "bg-green-500",
   "bg-emerald-500", "bg-teal-500", "bg-cyan-500", "bg-blue-500",
   "bg-indigo-500", "bg-violet-500", "bg-purple-500", "bg-fuchsia-500", "bg-pink-500"]

/-- ToInt32: reduce modulo 2^32 into the signed 32-bit range. -/
def toInt32 (x : Int) : Int :=
  if x % 4294967296 < 2147483648 then x % 4294967296
  else x % 4294967296 - 4294967296

/-- UTF-16 code units of one code point (`charCodeAt` reads code units). -/
def utf16Char (c : Char) : List Nat :=
  if c.toNat < 65536 then [c.toNat]
  else [0xD800 + (c.toNat - 65536) / 1024, 0xDC00 + (c.toNat - 65536) % 1024]

def utf16 (s : String) : List Nat := (s.data.map utf16Char).flatten

/-- One step of the source's loop `hash = name.charCodeAt(i) + ((hash << 5) - hash)`.
Only the shift coerces to Int32; the subtraction and addition are exact
number arithmetic, so the accumulator itself is NOT truncated between
steps. -/
def hashStep (h : Int) (c : Nat) : Int := (c : Int) + (toInt32 (32 * h) - h)

def jsHash (s : String) : Int := (utf16 s).foldl hashStep 0

/-- `getRandomColor` of the source: `colors[Math.abs(hash) % colors.length]`,
with `Math.abs` applied to the untruncated accumulator. -/
def getRandomColor (name : String) : String :=
  colors.getD ((jsHash name).natAbs % colors.length) ""

/-- Modelled from the spec: the spec's sender-colour hash, "fixed-width
integer wraparound semantics equivalent to 32-bit signed overflow" applied
at every step — each operation of `character_code + ((hash << 5) - hash)`
is wrapped to signed 32 bits, so the accumulator always stays in Int32
range. Used only to compare the spec's formula with the source's
`getRandomColor`. -/
def specHashStep (g : Int) (c : Nat) : Int :=
  toInt32 ((c : Int) + toInt32 (toInt32 (32 * g) - g))

/-- Modelled from the spec (see `specHashStep`): the fully-wrapped hash. -/
def specHash (s : String) : Int := (utf16 s).foldl specHashStep 0

/-- Modelled from the spec: palette entry at `abs(h) mod 13` for the
every-step-wrapped hash `h`. -/
def specColor (name : String) : String :=
  colors.getD ((specHash name).natAbs % colors.length) ""

/-! ### Dates

`new Date(fullYear, month - 1, day, hours, minutes, seconds)` is modelled by
recording the constructor arguments (the month 1-based, as parsed; the
constructor's `month - 1` is applied inside `jsTime`).  `jsTime` linearises
a date the way ECMAScript `MakeDay`/`MakeTime` do — months and days roll
over freely — up to a constant offset (epoch choice and a fixed local-time
offset), which is irrelevant to the parser's only use of time values:
comparison in the participant sort.  An invalid date (`NaN` fields) has
`jsTime = none`. -/

structure JsDate where
  year : Option Int
  month : Option Int
  day : Option Int
  hours : Nat
  minutes : Nat
  seconds : Nat
deriving DecidableEq, Repr

/-- JavaScript `<` against a number literal: false when the left side is NaN. -/
def jsLtNum (a : Option Int) (b : Int) : Bool :=
  match a with
  | some v => decide (v < b)
  | none => false

/-- The date branch of the source: `.` anywhere in the token selects
day-month-year via `split('.')`, otherwise month-day-year via `split('/')`.
Returns `(day, month, year)`; a missing piece is `undefined` and a piece
that is not all digits is `NaN`, both `none`. -/
def parseDateTriple (dateStr : List Char) : Option Int × Option Int × Option Int :=
  if dateStr.contains '.' then
    let ps := (splitOnChar '.' dateStr).map jsNumDigits
    ((ps.get? 0).join, (ps.get? 1).join, (ps.get? 2).join)
  else
    let ps := (splitOnChar '/' dateStr).map jsNumDigits
    ((ps.get? 1).join, (ps.get? 0).join, (ps.get? 2).join)

/-- `year < 100 ? 2000 + year : year` (NaN year stays NaN). -/
def jsFullYear (y : Option Int) : Option Int :=
  if jsLtNum y 100 then y.map (fun v => 2000 + v) else y

def daysBeforeYear (y : Int) : Int :=
  365 * y + ((y + 3).ediv 4 - (y + 99).ediv 100 + (y + 399).ediv 400)

def isLeapY (y : Int) : Bool :=
  (y.emod 4 == 0 && y.emod 100 != 0) || y.emod 400 == 0

def daysBeforeMonth (m : Nat) (leap : Bool) : Int :=
  ([0, 31, 59, 90, 120, 151, 181, 212, 243, 273, 304, 334].getD m 0 : Int) +
    (if leap && decide (2 ≤ m) then 1 else 0)

def jsTime (d : JsDate) : Option Int :=
  match d.year, d.month, d.day with
  | some y, some mo, some dd =>
    let months := 12 * y + (mo - 1)
    let yr := months.ediv 12
    let mn := (months.emod 12).toNat
    some ((((daysBeforeYear yr + daysBeforeMonth mn (isLeapY yr) + (dd - 1)) * 24
            + d.hours) * 60 + d.minutes) * 60 + d.seconds)
  | _, _, _ => none

/-! ### Output structures (src/types.ts) -/

inductive MsgType where
  | text
  | image
  | audio
  | video
  | system
deriving DecidableEq, Repr

structure Message where
  id : String
  rawDate : String
  timestamp : JsDate
  sender : String
  content : String
  isMe : Bool
  isSystem : Bool
  type : MsgType
  attachmentFileName : Option String
deriving DecidableEq, Repr

structure ChatParticipant where
  name : String
  lastMessage : String
  lastMessageDate : JsDate
  avatarColor : String
deriving DecidableEq, Repr

/-- The archive handle is opaque to the parser; only its presence matters. -/
structure ChatData where
  participants : List ChatParticipant
  messages : List Message
  allSenders : List String
  zipFile : Option Unit
deriving DecidableEq, Repr

/-! ### Content classification -/

def phraseImage : List Char := "görüntü dahil edilmedi".data
def phraseAudio : List Char := "ses dahil edilmedi".data
def phraseSecurity : List Char := "güvenlik kodu değişti".data
def phraseVideoCall : List Char := "görüntülü arama".data
def phraseVoiceCall : List Char := "sesli arama".data

/-- The system-phrase if/else chain on `contentStart.toLowerCase()`. -/
def typeFromPhrases (low : List Char) : MsgType :=
  if containsSeq phraseImage low then .image
  else if containsSeq phraseAudio low then .audio
  else if containsSeq phraseSecurity low then .system
  else if containsSeq phraseVideoCall low then .system
  else if containsSeq phraseVoiceCall low then .system
  else .text

def imageExts : List (List Char) := ["jpg", "jpeg", "png", "webp"].map String.data
def audioExts : List (List Char) := ["opus", "mp3", "wav", "aac", "m4a"].map String.data
def videoExts : List (List Char) := ["mp4", "mov"].map String.data

/-- `attachmentFileName.split('.').pop()?.toLowerCase()` with the source's
`ext || ''` default. The filename's characters are all ASCII (the regex
class), so ASCII lower-casing is exact. -/
def extOf (f : List Char) : List Char :=
  (((splitOnChar '.' f).getLast?).map (fun e => e.map toLowAscii)).getD []

/-- The attachment extraction: the angle-bracket regex is consulted first,
the parenthesised one only if it failed. -/
def attachSelect (content : List Char) : Option (List Char) :=
  match jsMatchNew content with
  | some f => some f
  | none => jsMatchOld content

/-- The extension-based override of the phrase-derived type. -/
def extOverride (t : MsgType) : Option (List Char) → MsgType
  | none => t
  | some f =>
    let e := extOf f
    if imageExts.contains e then .image
    else if audioExts.contains e then .audio
    else if videoExts.contains e then .video
    else t

/-- Lines 77–103 of the source: type classification and attachment capture
for the content portion of a freshly started message. -/
def classifyContent (content : List Char) : MsgType × Option (List Char) :=
  let t1 := typeFromPhrases (jsToLower content)
  let att := attachSelect content
  (extOverride t1 att, att)

/-- The AM/PM normalisation of the parsed hour. -/
def convertHours (amPm : Option (List Char)) (h : Nat) : Nat :=
  if amPm == some "ÖS".data || amPm == some "PM".data then
    if h != 12 then h + 12 else h
  else if amPm == some "ÖÖ".data || amPm == some "AM".data then
    if h == 12 then 0 else h
  else h

/-- `myName ? senderName === myName : false` — note that the empty string is
falsy in JavaScript, so an empty self identity behaves like null. -/
def mkIsMe (myName : Option String) (sender : String) : Bool :=
  match myName with
  | some n => if n == "" then false else sender == n
  | none => false

/-- `timeStr.split(':')` and `parseInt` on the three pieces; the regex
guarantees exactly three all-digit pieces. -/
def parseTimeTriple (timeStr : List Char) : Nat × Nat × Nat :=
  let ps := splitOnChar ':' timeStr
  (digitsVal (ps.getD 0 []), digitsVal (ps.getD 1 []), digitsVal (ps.getD 2 []))

/-! ### The single-pass parser -/

structure PState where
  cur : Option Message
  msgs : List Message
  parts : List ChatParticipant
  senders : List String
deriving Repr

/-- The `participantsMap` insert/update: a `Map` keyed by sender name,
insertion order preserved, `avatarColor` computed only at creation. -/
def pUpsert (parts : List ChatParticipant) (name lastMsg : String) (d : JsDate) :
    List ChatParticipant :=
  if parts.any (fun p => p.name == name) then
    parts.map fun p =>
      if p.name == name then { p with lastMessage := lastMsg, lastMessageDate := d } else p
  else
    parts ++ [{ name := name, lastMessage := lastMsg, lastMessageDate := d,
                avatarColor := getRandomColor name }]

/-- `sendersSet.add` (a `Set` keeps first-insertion order). -/
def addSender (senders : List String) (n : String) : List String :=
  if senders.contains n then senders else senders ++ [n]

/-- Per-line preprocessing: strip bidi marks, then trim. -/
def cleanLine (l : List Char) : List Char := trimJs (removeBidi l)

/-- Building the message record for a matched start line at raw index `i`. -/
def buildMessage (i : Nat) (g : MsgGroups) (myName : Option String) : Message :=
  let senderName := String.mk (trimJs g.senderRaw)
  let dmy := parseDateTriple g.dateStr
  let hms := parseTimeTriple g.timeStr
  let hours := convertHours g.amPm hms.1
  let mmStr := (splitOnChar ':' g.timeStr).getD 1 []
  let ts : JsDate :=
    { year := jsFullYear dmy.2.2, month := dmy.2.1, day := dmy.1,
      hours := hours, minutes := hms.2.1, seconds := hms.2.2 }
  let ca := classifyContent g.content
  { id := "msg-" ++ toString i,
    rawDate := String.mk g.dateStr ++ " " ++ toString hours ++ ":" ++ String.mk mmStr,
    timestamp := ts,
    sender := senderName,
    content := String.mk g.content,
    isMe := mkIsMe myName senderName,
    isSystem := ca.1 == MsgType.system,
    type := ca.1,
    attachmentFileName := ca.2.map String.mk }

/-- One iteration of the source's `for` loop over lines. -/
def processLine (myName : Option String) (i : Nat) (raw : List Char) (st : PState) : PState :=
  let line := cleanLine raw
  if line.isEmpty then st
  else
    match msgStartMatch line with
    | some g =>
      let m := buildMessage i g myName
      let msgs' := st.msgs ++ st.cur.toList
      let senders' := addSender st.senders m.sender
      let parts' :=
        if !m.isMe && m.type != MsgType.system then
          pUpsert st.parts m.sender (String.mk g.content) m.timestamp
        else st.parts
      { cur := some m, msgs := msgs', parts := parts', senders := senders' }
    | none =>
      match st.cur with
      | some c =>
        { st with cur := some { c with content := c.content ++ "\n" ++ String.mk line } }
      | none => st

def runLines (myName : Option String) : Nat → List (List Char) → PState → PState
  | _, [], st => st
  | i, l :: ls, st => runLines myName (i + 1) ls (processLine myName i l st)

/-- The participant sort comparator `(a, b) => b.lastMessageDate.getTime() -
a.lastMessageDate.getTime()`: `q` strictly precedes `p` iff both times are
valid and `q`'s is larger (a NaN comparator value counts as 0 per
`SortCompare`). -/
def gtTime (p q : ChatParticipant) : Bool :=
  match jsTime p.lastMessageDate, jsTime q.lastMessageDate with
  | some a, some b => decide (b < a)
  | _, _ => false

/-- Stable insertion into a descending-sorted list: `p` (originally earlier
than everything in the list) goes before the first entry not strictly
later than it. -/
def insertByTime (p : ChatParticipant) : List ChatParticipant → List ChatParticipant
  | [] => [p]
  | q :: qs => if gtTime q p then q :: insertByTime p qs else p :: q :: qs

/-- `Array.prototype.sort` with the comparator above (stable since ES2019). -/
def sortParts : List ChatParticipant → List ChatParticipant
  | [] => []
  | p :: ps => insertByTime p (sortParts ps)

/-- `parseChatFile(text, zipFile, myName = null)`. -/
def parseChatFile (text : String) (zipFile : Option Unit)
    (myName : Option String := none) : ChatData :=
  let st := runLines myName 0 (splitOnChar '\n' text.data) ⟨none, [], [], []⟩
  { messages := st.msgs ++ st.cur.toList,
    participants := sortParts st.parts,
    allSenders := st.senders,
    zipFile := zipFile }

/-- The content a message had on its start line: its final content truncated
at the first newline (continuation lines are appended as `"\n" ++ line` and
neither the start content nor any appended line contains a newline). -/
def firstSeg (s : String) : String := String.mk (s.data.takeWhile (fun c => c != '\n'))

/-! ### Reference formulations used to state the claims -/

/-- Reference content grouping with a message currently open (accumulator
`acc`): a blank cleaned line is skipped, a start line closes `acc` and opens
the new content, any other line is appended newline-joined to `acc`. -/
def refContentsOpen (acc : String) : List (List Char) → List String
  | [] => [acc]
  | l :: ls =>
    if l.isEmpty then refContentsOpen acc ls
    else
      match msgStartMatch l with
      | some g => acc :: refContentsOpen (String.mk g.content) ls
      | none => refContentsOpen (acc ++ "\n" ++ String.mk l) ls

/-- Reference content grouping with no message open yet: non-start lines are
discarded until the first start line opens a message. -/
def refContents : List (List Char) → List String
  | [] => []
  | l :: ls =>
    if l.isEmpty then refContents ls
    else
      match msgStartMatch l with
      | some g => refContentsOpen (String.mk g.content) ls
      | none => refContents ls

/-- The number of (cleaned) lines matching the message-start pattern. -/
def countStarts (ls : List (List Char)) : Nat :=
  (ls.filter (fun l => (msgStartMatch l).isSome)).length

/-- A message that creates/updates a participant entry: not self, not system. -/
def qualMsg (m : Message) : Bool := !m.isMe && m.type != MsgType.system

/-- Participant aggregation replayed over finished messages: the update a
message performed at its start line, reconstructed from the final record
(the content at start time is `firstSeg` of the final content). -/
def aggStep (acc : List ChatParticipant) (m : Message) : List ChatParticipant :=
  if qualMsg m then pUpsert acc m.sender (firstSeg m.content) m.timestamp else acc

def aggParts (ms : List Message) : List ChatParticipant := ms.foldl aggStep []

/-- The messages a parser state accounts for: the closed ones plus the open
one (the output of the parse after the final flush). -/
def finalMsgs (st : PState) : List Message := st.msgs ++ st.cur.toList

/-! ## Theorems -/

/-- C1: parsing `"[28.11.2024 14:05:00] Alice: Hello\nworld\n[28.11.2024
14:06:00] Bob: Hi"` with a null archive handle and no self identity yields
exactly two messages — Alice with content `"Hello\nworld"`, then Bob with
`"Hi"` — `allSenders = ["Alice", "Bob"]`, and participant entries for both,
ordered by `lastMessageDate` descending with Bob (14:06) before Alice
(14:05). -/
theorem claim_c1 :
    (parseChatFile "[28.11.2024 14:05:00] Alice: Hello\nworld\n[28.11.2024 14:06:00] Bob: Hi"
        none none).messages.map (fun m => (m.sender, m.content))
      = [("Alice", "Hello\nworld"), ("Bob", "Hi")] ∧
    (parseChatFile "[28.11.2024 14:05:00] Alice: Hello\nworld\n[28.11.2024 14:06:00] Bob: Hi"
        none none).allSenders = ["Alice", "Bob"] ∧
    (parseChatFile "[28.11.2024 14:05:00] Alice: Hello\nworld\n[28.11.2024 14:06:00] Bob: Hi"
        none none).participants.map (fun p => (p.name, p.lastMessageDate.minutes))
      = [("Bob", 6), ("Alice", 5)] := by
  decide

/-- C4: the hour stored in a parsed message's timestamp comes from
`convertHours`: a PM-equivalent marker (ÖS/PM) with hour ≠ 12 adds 12, an
AM-equivalent marker (ÖÖ/AM) with hour 12 gives 0, every other combination
leaves the hour unchanged; concretely 12:05:00 PM gives 12, 12:05:00 AM
gives 0, 01:05:00 PM gives 13. -/
theorem claim_c4 :
    (∀ (mk : Option (List Char)) (h : Nat),
      ((mk = some "ÖS".data ∨ mk = some "PM".data) → h ≠ 12 → convertHours mk h = h + 12) ∧
      ((mk = some "ÖS".data ∨ mk = some "PM".data) → convertHours mk 12 = 12) ∧
      ((mk = some "ÖÖ".data ∨ mk = some "AM".data) → convertHours mk 12 = 0) ∧
      ((mk = some "ÖÖ".data ∨ mk = some "AM".data) → h ≠ 12 → convertHours mk h = h) ∧
      (mk ≠ some "ÖS".data → mk ≠ some "PM".data → mk ≠ some "ÖÖ".data →
        mk ≠ some "AM".data → convertHours mk h = h)) ∧
    (parseChatFile "[6/27/24 PM 12:05:00] Bob: Hi" none none).messages.map
        (fun m => m.timestamp.hours) = [12] ∧
    (parseChatFile "[6/27/24 AM 12:05:00] Bob: Hi" none none).messages.map
        (fun m => m.timestamp.hours) = [0] ∧
    (parseChatFile "[6/27/24 PM 01:05:00] Bob: Hi" none none).messages.map
        (fun m => m.timestamp.hours) = [13] := by
  refine ⟨fun mk h => ⟨?_, ?_, ?_, ?_, ?_⟩, by decide, by decide, by decide⟩
  · rintro (rfl | rfl) hne <;> simp [convertHours, hne]
  · rintro (rfl | rfl) <;> simp [convertHours]
  · rintro (rfl | rfl) <;> simp [convertHours]
  · rintro (rfl | rfl) hne <;> simp [convertHours, hne]
  · intro h1 h2 h3 h4
    simp only [convertHours, beq_iff_eq, Option.some.injEq]
    rw [if_neg, if_neg]
    · simp only [Bool.or_eq_true, beq_iff_eq]
      rintro (h' | h') <;> simp_all
    · simp only [Bool.or_eq_true, beq_iff_eq]
      rintro (h' | h') <;> simp_all

/-- C4 witness: the general statement of `claim_c4` applied at concrete
markers and hours. -/
theorem claim_c4_witness :
    convertHours (some "PM".data) 1 = 1 + 12 ∧ convertHours (some "ÖÖ".data) 12 = 0 ∧
    convertHours none 5 = 5 :=
  ⟨(claim_c4.1 (some "PM".data) 1).1 (Or.inr rfl) (by decide),
   (claim_c4.1 (some "ÖÖ".data) 0).2.2.1 (Or.inl rfl),
   (claim_c4.1 none 5).2.2.2.2 (by decide) (by decide) (by decide) (by decide)⟩

/-- C6: when both attachment regexes match a content string, the filename
recorded is the one captured by the angle-bracket pattern (the source
consults `attachmentRegexNew` first). -/
theorem claim_c6 :
    ∀ (c f g : List Char), jsMatchNew c = some f → jsMatchOld c = some g →
      attachSelect c = some f := by
  intro c f g hn _
  simp [attachSelect, hn]

/-- C6 witness: a content string matched by both patterns resolves to the
angle-bracket filename. -/
theorem claim_c6_witness :
    attachSelect "<a.jpg eklendi> b.png (file attached)".data = some "a.jpg".data :=
  claim_c6 _ _ " b.png".data (by decide) (by decide)

/-- C8 counterexample: for the name `"Ferhat"` the source's colour (the hash
accumulator is only truncated to 32 bits inside the shift, and
`Math.abs(hash) % 13` is taken on the untruncated value, here −2194151864)
is `bg-indigo-500`, while the palette entry selected by the spec's
every-step-32-bit-wrapped hash (2100815432) is `bg-orange-500`. -/
theorem claim_c8_counterexample :
    getRandomColor "Ferhat" = "bg-indigo-500" ∧ specColor "Ferhat" = "bg-orange-500" ∧
    getRandomColor "Ferhat" ≠ specColor "Ferhat" := by
  refine ⟨by decide, by decide, by decide⟩

lemma toInt32_emod (x : Int) : toInt32 x % 4294967296 = x % 4294967296 := by
  unfold toInt32
  split
  · exact Int.emod_emod_of_dvd x (dvd_refl _)
  · rw [Int.emod_sub_cancel]
    exact Int.emod_emod_of_dvd x (dvd_refl _)

lemma toInt32_congr {x y : Int} (h : x % 4294967296 = y % 4294967296) :
    toInt32 x = toInt32 y := by
  unfold toInt32
  rw [h]

lemma toInt32_modeq (x : Int) : Int.ModEq 4294967296 (toInt32 x) x :=
  toInt32_emod x

lemma hashStep_cong (h : Int) (c : Nat) :
    toInt32 (hashStep h c) = specHashStep (toInt32 h) c := by
  simp only [hashStep, specHashStep]
  apply toInt32_congr
  show Int.ModEq 4294967296 _ _
  have ht := toInt32_modeq h
  have hA := toInt32_modeq (32 * h)
  have hB := toInt32_modeq (32 * toInt32 h)
  have hD := toInt32_modeq (toInt32 (32 * toInt32 h) - toInt32 h)
  have e1 : Int.ModEq 4294967296 ((c : Int) + (toInt32 (32 * h) - h))
      ((c : Int) + (32 * h - h)) :=
    (hA.sub (Int.ModEq.refl h)).add_left _
  have e2 : Int.ModEq 4294967296
      ((c : Int) + toInt32 (toInt32 (32 * toInt32 h) - toInt32 h))
      ((c : Int) + (32 * h - h)) :=
    ((hD.trans ((hB.sub (Int.ModEq.refl (toInt32 h))).trans
      ((ht.mul_left 32).sub ht))).add_left _)
  exact e1.trans e2.symm

lemma hash_fold_cong (l : List Nat) : ∀ h : Int,
    toInt32 (l.foldl hashStep h) = l.foldl specHashStep (toInt32 h) := by
  induction l with
  | nil => intro h; rfl
  | cons c t ih =>
    intro h
    simp only [List.foldl_cons]
    rw [ih (hashStep h c), hashStep_cong]

/-- C8 amended: the colour is the palette entry at `abs(h) mod 13` where `h`
is the hash folded with exact integer arithmetic in which only the shift
operand is truncated to 32 bits (the accumulator is never truncated between
steps, and `Math.abs`/`%` act on the untruncated value); that accumulator is
congruent modulo 2^32 to the spec's every-step-wrapped hash, coinciding with
it exactly when it lies in the signed 32-bit range. -/
theorem claim_c8_amended : ∀ name : String,
    getRandomColor name = colors.getD ((jsHash name).natAbs % colors.length) "" ∧
    toInt32 (jsHash name) = specHash name := by
  intro name
  refine ⟨rfl, ?_⟩
  have h0 : toInt32 0 = 0 := by decide
  have h := hash_fold_cong (utf16 name) 0
  rw [h0] at h
  exact h

lemma containsL_iff {α : Type} [BEq α] [LawfulBEq α] {l : List α} {x : α} :
    l.contains x = true ↔ x ∈ l := by
  simp [List.contains_iff_exists_mem_beq, eq_comm]

lemma not_mem_of_all_digits {l : List Char} {c : Char} (h : l.all isDigitCh = true)
    (hc : isDigitCh c = false) : c ∉ l := by
  intro hm
  have := List.all_eq_true.mp h c hm
  rw [this] at hc
  cases hc

lemma splitOnChar_of_not_mem {sep : Char} : ∀ {l : List Char}, sep ∉ l →
    splitOnChar sep l = [l] := by
  intro l
  induction l with
  | nil => intro _; rfl
  | cons c cs ih =>
    intro h
    have hc : (c == sep) = false := by
      simp only [beq_eq_false_iff_ne, ne_eq]
      rintro rfl
      exact h (List.mem_cons_self _ _)
    have ih' := ih (fun hm => h (List.mem_cons_of_mem _ hm))
    simp [splitOnChar, hc, ih']

lemma splitOnChar_append_sep {sep : Char} : ∀ {l1 : List Char}, sep ∉ l1 →
    ∀ l2 : List Char, splitOnChar sep (l1 ++ sep :: l2) = l1 :: splitOnChar sep l2 := by
  intro l1
  induction l1 with
  | nil =>
    intro _ l2
    simp [splitOnChar]
  | cons c cs ih =>
    intro h l2
    have hc : (c == sep) = false := by
      simp only [beq_eq_false_iff_ne, ne_eq]
      rintro rfl
      exact h (List.mem_cons_self _ _)
    have ih' := ih (fun hm => h (List.mem_cons_of_mem _ hm)) l2
    simp [splitOnChar, hc, ih']

lemma jsNumDigits_of_digits {l : List Char} (hne : l ≠ []) (h : l.all isDigitCh = true) :
    jsNumDigits l = some (digitsVal l) := by
  have he : l.isEmpty = false := by
    cases l with
    | nil => exact absurd rfl hne
    | cons a t => rfl
  simp [jsNumDigits, he, h]

/-- C3: the date token's separator decides the parsed field order —
`parseDateTriple` returns `(day, month, year)`, so a `.`-separated token is
read day-month-year and a `/`-separated token month-day-year; a year below
100 is normalised by adding 2000 and a year of 100 or more is kept;
concretely `28.11.2024` stores day 28, month 11, year 2024 and `6/27/24`
stores day 27, month 6, year 2024 in the message timestamp. -/
theorem claim_c3 :
    (∀ d1 d2 d3 : List Char,
      d1 ≠ [] → d1.all isDigitCh = true → d2 ≠ [] → d2.all isDigitCh = true →
      d3 ≠ [] → d3.all isDigitCh = true →
      parseDateTriple (d1 ++ '.' :: (d2 ++ '.' :: d3))
          = ((some (digitsVal d1) : Option Int), (some (digitsVal d2) : Option Int),
             (some (digitsVal d3) : Option Int)) ∧
      parseDateTriple (d1 ++ '/' :: (d2 ++ '/' :: d3))
          = ((some (digitsVal d2) : Option Int), (some (digitsVal d1) : Option Int),
             (some (digitsVal d3) : Option Int))) ∧
    (∀ y : Int, jsFullYear (some y) = some (if y < 100 then 2000 + y else y)) ∧
    (parseChatFile "[28.11.2024 14:05:00] A: x" none none).messages.map
        (fun m => (m.timestamp.day, m.timestamp.month, m.timestamp.year))
      = [(some 28, some 11, some 2024)] ∧
    (parseChatFile "[6/27/24 1:02:03] A: x" none none).messages.map
        (fun m => (m.timestamp.day, m.timestamp.month, m.timestamp.year))
      = [(some 27, some 6, some 2024)] := by
  refine ⟨fun d1 d2 d3 h1 h1d h2 h2d h3 h3d => ⟨?_, ?_⟩, fun y => ?_, by decide, by decide⟩
  · have n1 : ('.' : Char) ∉ d1 := not_mem_of_all_digits h1d (by decide)
    have n2 : ('.' : Char) ∉ d2 := not_mem_of_all_digits h2d (by decide)
    have n3 : ('.' : Char) ∉ d3 := not_mem_of_all_digits h3d (by decide)
    have hc : (d1 ++ '.' :: (d2 ++ '.' :: d3)).contains '.' = true :=
      containsL_iff.mpr (by simp)
    simp [parseDateTriple, hc, splitOnChar_append_sep n1, splitOnChar_append_sep n2,
          splitOnChar_of_not_mem n3, jsNumDigits_of_digits h1 h1d,
          jsNumDigits_of_digits h2 h2d, jsNumDigits_of_digits h3 h3d]
  · have n1 : ('.' : Char) ∉ d1 := not_mem_of_all_digits h1d (by decide)
    have n2 : ('.' : Char) ∉ d2 := not_mem_of_all_digits h2d (by decide)
    have n3 : ('.' : Char) ∉ d3 := not_mem_of_all_digits h3d (by decide)
    have s1 : ('/' : Char) ∉ d1 := not_mem_of_all_digits h1d (by decide)
    have s2 : ('/' : Char) ∉ d2 := not_mem_of_all_digits h2d (by decide)
    have s3 : ('/' : Char) ∉ d3 := not_mem_of_all_digits h3d (by decide)
    have hc : (d1 ++ '/' :: (d2 ++ '/' :: d3)).contains '.' = false := by
      rw [← Bool.not_eq_true, ← ne_eq]
      intro hcc
      have := containsL_iff.mp hcc
      simp only [List.mem_append, List.mem_cons] at this
      rcases this with h' | h' | h' | h' | h'
      · exact n1 h'
      · cases h'
      · exact n2 h'
      · cases h'
      · exact n3 h'
    simp [parseDateTriple, hc, splitOnChar_append_sep s1, splitOnChar_append_sep s2,
          splitOnChar_of_not_mem s3, jsNumDigits_of_digits h1 h1d,
          jsNumDigits_of_digits h2 h2d, jsNumDigits_of_digits h3 h3d]
    rintro (h' | h' | h')
    · exact absurd h' n1
    · exact absurd h' n2
    · exact absurd h' n3
  · by_cases hy : y < 100
    · simp [jsFullYear, jsLtNum, hy]
    · simp [jsFullYear, jsLtNum, hy]

/-- C3 witness: the separator rule and year windowing of `claim_c3`, applied
at the concrete tokens `28.11.2024` and `6/27/24`. -/
theorem claim_c3_witness :
    parseDateTriple "28.11.2024".data = (some 28, some 11, some 2024) ∧
    parseDateTriple "6/27/24".data = (some 27, some 6, some 24) ∧
    jsFullYear (some 24) = some 2024 := by
  refine ⟨?_, ?_, ?_⟩
  · exact (claim_c3.1 "28".data "11".data "2024".data (by decide) (by decide) (by decide)
      (by decide) (by decide) (by decide)).1
  · exact (claim_c3.1 "6".data "27".data "24".data (by decide) (by decide) (by decide)
      (by decide) (by decide) (by decide)).2
  · simpa using claim_c3.2.1 24

/-- C5: when the content of a message-start line yields an attachment
filename, the final type is re-derived from the filename's extension —
jpg/jpeg/png/webp give image, opus/mp3/wav/aac/m4a give audio, mp4/mov give
video — overriding whatever the system-phrase checks produced; in
particular a content matching the missing-image phrase that also carries an
attachment reference ending in `.mp4` ends up with type video, not image. -/
theorem claim_c5 :
    (∀ (c f : List Char), attachSelect c = some f →
      (extOf f ∈ imageExts → (classifyContent c).1 = MsgType.image) ∧
      (extOf f ∈ audioExts → (classifyContent c).1 = MsgType.audio) ∧
      (extOf f ∈ videoExts → (classifyContent c).1 = MsgType.video)) ∧
    typeFromPhrases (jsToLower "görüntü dahil edilmedi clip.mp4 (file attached)".data)
      = MsgType.image ∧
    (classifyContent "görüntü dahil edilmedi clip.mp4 (file attached)".data).1
      = MsgType.video := by
  refine ⟨fun c f hf => ?_, by decide, by decide⟩
  have hcc : (classifyContent c).1
      = extOverride (typeFromPhrases (jsToLower c)) (some f) := by
    simp [classifyContent, hf]
  refine ⟨fun hext => ?_, fun hext => ?_, fun hext => ?_⟩
  · rw [hcc]
    simp only [extOverride]
    rw [if_pos (containsL_iff.mpr hext)]
  · rw [hcc]
    have h1 : ¬ (imageExts.contains (extOf f) = true) := fun hcon =>
      ((by decide : ∀ e ∈ audioExts, e ∉ imageExts) _ hext) (containsL_iff.mp hcon)
    simp only [extOverride]
    rw [if_neg h1, if_pos (containsL_iff.mpr hext)]
  · rw [hcc]
    have h1 : ¬ (imageExts.contains (extOf f) = true) := fun hcon =>
      ((by decide : ∀ e ∈ videoExts, e ∉ imageExts) _ hext) (containsL_iff.mp hcon)
    have h2 : ¬ (audioExts.contains (extOf f) = true) := fun hcon =>
      ((by decide : ∀ e ∈ videoExts, e ∉ audioExts) _ hext) (containsL_iff.mp hcon)
    simp only [extOverride]
    rw [if_neg h1, if_neg h2, if_pos (containsL_iff.mpr hext)]

/-- C5 witness: the override of `claim_c5` applied to a concrete content
with a `.opus` attachment. -/
theorem claim_c5_witness :
    (classifyContent "ses dahil edilmedi voice.opus (file attached)".data).1
      = MsgType.audio :=
  ((claim_c5.1 "ses dahil edilmedi voice.opus (file attached)".data
      "ses dahil edilmedi voice.opus".data (by decide)).2.1 (by decide))

/-- C10: an attachment reference whose filename ends in `.pdf`, in a content
matching none of the five system phrases, sets `attachmentFileName` while
the type stays text — a present attachment does not imply a media type. -/
theorem claim_c10 :
    ∀ (c f : List Char), attachSelect c = some f → extOf f = "pdf".data →
      containsSeq phraseImage (jsToLower c) = false →
      containsSeq phraseAudio (jsToLower c) = false →
      containsSeq phraseSecurity (jsToLower c) = false →
      containsSeq phraseVideoCall (jsToLower c) = false →
      containsSeq phraseVoiceCall (jsToLower c) = false →
      classifyContent c = (MsgType.text, some f) := by
  intro c f hf hext p1 p2 p3 p4 p5
  have ht : typeFromPhrases (jsToLower c) = MsgType.text := by
    simp [typeFromPhrases, p1, p2, p3, p4, p5]
  have e1 : ¬ (imageExts.contains "pdf".data = true) := fun hcon =>
    (by decide : "pdf".data ∉ imageExts) (containsL_iff.mp hcon)
  have e2 : ¬ (audioExts.contains "pdf".data = true) := fun hcon =>
    (by decide : "pdf".data ∉ audioExts) (containsL_iff.mp hcon)
  have e3 : ¬ (videoExts.contains "pdf".data = true) := fun hcon =>
    (by decide : "pdf".data ∉ videoExts) (containsL_iff.mp hcon)
  simp only [classifyContent, hf, extOverride, hext]
  rw [if_neg e1, if_neg e2, if_neg e3, ht]

/-- C10 witness: `claim_c10` applied to the concrete content
`"rapor final.pdf (file attached)"`. -/
theorem claim_c10_witness :
    classifyContent "rapor final.pdf (file attached)".data
      = (MsgType.text, some "rapor final.pdf".data) :=
  claim_c10 _ _ (by decide) (by decide) (by decide) (by decide) (by decide)
    (by decide) (by decide)

/-- C9 counterexample: with the caller-supplied self identity `""` (falsy in
JavaScript) and a message whose trimmed sender is `""`, the parsed message
has `isMe = false` although its sender equals the supplied identity — the
claimed equivalence fails at this input. -/
theorem claim_c9_counterexample :
    ¬ (∀ m ∈ (parseChatFile "[28.11.2024 14:05:00] : Hi" none (some "")).messages,
        (m.isMe = true ↔ m.sender = "")) := by
  decide

lemma msgStartMatch_nil : msgStartMatch [] = none := rfl

lemma runLines_cons (my : Option String) (i : Nat) (l : List Char)
    (ls : List (List Char)) (st : PState) :
    runLines my i (l :: ls) st = runLines my (i + 1) ls (processLine my i l st) := rfl

lemma processLine_empty (my : Option String) (i : Nat) (raw : List Char) (st : PState)
    (h : (cleanLine raw).isEmpty = true) : processLine my i raw st = st := by
  simp [processLine, h]

lemma processLine_start (my : Option String) (i : Nat) (raw : List Char) (st : PState)
    (g : MsgGroups) (hne : (cleanLine raw).isEmpty = false)
    (hm : msgStartMatch (cleanLine raw) = some g) :
    processLine my i raw st =
      { cur := some (buildMessage i g my),
        msgs := st.msgs ++ st.cur.toList,
        parts := if qualMsg (buildMessage i g my)
                 then pUpsert st.parts (buildMessage i g my).sender (String.mk g.content)
                   (buildMessage i g my).timestamp
                 else st.parts,
        senders := addSender st.senders (buildMessage i g my).sender } := by
  simp [processLine, hne, hm, qualMsg]

lemma processLine_cont_some (my : Option String) (i : Nat) (raw : List Char) (st : PState)
    (c : Message) (hne : (cleanLine raw).isEmpty = false)
    (hm : msgStartMatch (cleanLine raw) = none) (hc : st.cur = some c) :
    processLine my i raw st =
      { st with cur := some { c with content := c.content ++ "\n" ++ String.mk (cleanLine raw) } } := by
  simp [processLine, hne, hm, hc]

lemma processLine_cont_none (my : Option String) (i : Nat) (raw : List Char) (st : PState)
    (hne : (cleanLine raw).isEmpty = false)
    (hm : msgStartMatch (cleanLine raw) = none) (hc : st.cur = none) :
    processLine my i raw st = st := by
  simp [processLine, hne, hm, hc]

lemma countStarts_cons (l : List Char) (ls : List (List Char)) :
    countStarts (l :: ls) = countStarts ls + (if (msgStartMatch l).isSome then 1 else 0) := by
  simp only [countStarts, List.filter_cons]
  split <;> simp [Nat.add_comm]

lemma runLines_count (my : Option String) : ∀ (lines : List (List Char)) (i : Nat) (st : PState),
    (finalMsgs (runLines my i lines st)).length
      = (finalMsgs st).length + countStarts (lines.map cleanLine) := by
  intro lines
  induction lines with
  | nil => intro i st; simp [runLines, countStarts]
  | cons l ls ih =>
    intro i st
    rw [runLines_cons, ih, List.map_cons, countStarts_cons]
    cases he : (cleanLine l).isEmpty
    · cases hm : msgStartMatch (cleanLine l) with
      | none =>
        cases hc : st.cur with
        | none => rw [processLine_cont_none my i l st he hm hc]; simp [hm]
        | some c =>
          rw [processLine_cont_some my i l st c he hm hc]
          simp [finalMsgs, hm, hc]
      | some g =>
        rw [processLine_start my i l st g he hm]
        simp [finalMsgs, hm]
        omega
    · rw [processLine_empty my i l st he]
      have : cleanLine l = [] := by
        cases hq : cleanLine l with
        | nil => rfl
        | cons a t => rw [hq] at he; cases he
      simp [this, msgStartMatch_nil]

lemma runLines_contents (my : Option String) :
    ∀ (lines : List (List Char)) (i : Nat) (st : PState),
    (finalMsgs (runLines my i lines st)).map (fun m => m.content)
      = st.msgs.map (fun m => m.content) ++
        (match st.cur with
         | none => refContents (lines.map cleanLine)
         | some c => refContentsOpen c.content (lines.map cleanLine)) := by
  intro lines
  induction lines with
  | nil =>
    intro i st
    cases hc : st.cur with
    | none => simp [runLines, finalMsgs, refContents, hc]
    | some c => simp [runLines, finalMsgs, refContentsOpen, hc]
  | cons l ls ih =>
    intro i st
    rw [runLines_cons, ih]
    cases he : (cleanLine l).isEmpty
    · cases hm : msgStartMatch (cleanLine l) with
      | none =>
        cases hc : st.cur with
        | none =>
          rw [processLine_cont_none my i l st he hm hc]
          simp [refContents, hc, he, hm]
        | some c =>
          rw [processLine_cont_some my i l st c he hm hc]
          simp [refContentsOpen, hc, he, hm]
      | some g =>
        have hbc : (buildMessage i g my).content = String.mk g.content := rfl
        rw [processLine_start my i l st g he hm]
        cases hc : st.cur with
        | none => simp [refContents, hc, he, hm, hbc]
        | some c => simp [refContentsOpen, hc, he, hm, hbc, finalMsgs]
    · rw [processLine_empty my i l st he]
      have hnil : cleanLine l = [] := by
        cases hq : cleanLine l with
        | nil => rfl
        | cons a t => rw [hq] at he; cases he
      cases hc : st.cur with
      | none => simp [refContents, hc, hnil]
      | some c => simp [refContentsOpen, hc, hnil]

/-- C2: for every input, the number of messages equals the number of cleaned
lines matching the start pattern (blank lines cannot match it), and the
message contents are exactly the reference grouping: each non-matching
non-blank line is appended newline-joined to the immediately preceding open
message in input order, and discarded while no message is open. -/
theorem claim_c2 : ∀ (text : String) (z : Option Unit) (my : Option String),
    (parseChatFile text z my).messages.length
      = countStarts ((splitOnChar '\n' text.data).map cleanLine) ∧
    (parseChatFile text z my).messages.map (fun m => m.content)
      = refContents ((splitOnChar '\n' text.data).map cleanLine) := by
  intro text z my
  constructor
  · have h := runLines_count my (splitOnChar '\n' text.data) 0 ⟨none, [], [], []⟩
    simpa [parseChatFile, finalMsgs] using h
  · have h := runLines_contents my (splitOnChar '\n' text.data) 0 ⟨none, [], [], []⟩
    simpa [parseChatFile, finalMsgs] using h

lemma runLines_isMe (my : Option String) : ∀ (lines : List (List Char)) (i : Nat) (st : PState),
    (∀ m ∈ finalMsgs st, m.isMe = mkIsMe my m.sender) →
    ∀ m ∈ finalMsgs (runLines my i lines st), m.isMe = mkIsMe my m.sender := by
  intro lines
  induction lines with
  | nil => intro i st h; simpa [runLines] using h
  | cons l ls ih =>
    intro i st h
    rw [runLines_cons]
    apply ih
    intro m hm
    cases he : (cleanLine l).isEmpty
    · cases hq : msgStartMatch (cleanLine l) with
      | none =>
        cases hc : st.cur with
        | none =>
          rw [processLine_cont_none my i l st he hq hc] at hm
          exact h m hm
        | some c =>
          rw [processLine_cont_some my i l st c he hq hc] at hm
          rcases List.mem_append.mp hm with h1 | h2
          · exact h m (List.mem_append.mpr (Or.inl h1))
          · have hmc : m = { c with content := c.content ++ "\n" ++ String.mk (cleanLine l) } := by
              simpa using h2
            have hcin : c ∈ finalMsgs st := by
              simp [finalMsgs, hc]
            have := h c hcin
            rw [hmc]
            exact this
      | some g =>
        rw [processLine_start my i l st g he hq] at hm
        rcases List.mem_append.mp hm with h1 | h2
        · exact h m h1
        · have hmb : m = buildMessage i g my := by simpa using h2
          rw [hmb]
          rfl
    · rw [processLine_empty my i l st he] at hm
      exact h m hm

/-- C9 amended: with a caller-supplied non-empty self identity `s`, a parsed
message has `isMe = true` iff its trimmed sender equals `s`; with no self
identity, or with the empty string as self identity (falsy in JavaScript,
hence treated like null by `myName ? … : false`), every message has
`isMe = false`. -/
theorem claim_c9_amended : ∀ (text : String) (z : Option Unit),
    (∀ s : String, s ≠ "" → ∀ m ∈ (parseChatFile text z (some s)).messages,
        (m.isMe = true ↔ m.sender = s)) ∧
    (∀ m ∈ (parseChatFile text z none).messages, m.isMe = false) ∧
    (∀ m ∈ (parseChatFile text z (some "")).messages, m.isMe = false) := by
  intro text z
  have base : ∀ (my : Option String) (m : Message),
      m ∈ (parseChatFile text z my).messages → m.isMe = mkIsMe my m.sender := by
    intro my m hm
    exact runLines_isMe my (splitOnChar '\n' text.data) 0 ⟨none, [], [], []⟩
      (by simp [finalMsgs]) m hm
  refine ⟨fun s hs m hm => ?_, fun m hm => ?_, fun m hm => ?_⟩
  · rw [base (some s) m hm]
    have hsb : (s == "") = false := by
      simpa using hs
    simp [mkIsMe, hsb]
  · exact base none m hm
  · exact base (some "") m hm

/-- C9 witness: the amended equivalence of `claim_c9_amended` applied at a
concrete parse with self identity `"Alice"` and its parsed message. -/
theorem claim_c9_witness :
    ({ id := "msg-0", rawDate := "1.2.2024 10:00",
       timestamp := { year := some 2024, month := some 2, day := some 1,
                      hours := 10, minutes := 0, seconds := 0 },
       sender := "Alice", content := "Hi", isMe := true, isSystem := false,
       type := MsgType.text, attachmentFileName := none } : Message).isMe = true :=
  ((claim_c9_amended "[1.2.2024 10:00:00] Alice: Hi" none).1 "Alice" (by decide) _
    (by decide)).mpr rfl

lemma takeWhile_append_stop {p : Char → Bool} (hp : p '\n' = false) :
    ∀ (xs ys : List Char), (xs ++ '\n' :: ys).takeWhile p = xs.takeWhile p := by
  intro xs ys
  induction xs with
  | nil => simp [List.takeWhile_cons, hp]
  | cons a as ih => cases hpa : p a <;> simp [List.takeWhile_cons, hpa, ih]

lemma firstSeg_append (a b : String) : firstSeg (a ++ "\n" ++ b) = firstSeg a := by
  have hd : (a ++ "\n" ++ b).data = a.data ++ '\n' :: b.data := by
    simp [String.data_append]
  rw [firstSeg, firstSeg, hd, takeWhile_append_stop (by decide)]

lemma firstSeg_of_dot {s : List Char} (h : s.all isDotChar = true) :
    firstSeg (String.mk s) = String.mk s := by
  rw [firstSeg]
  congr 1
  rw [List.takeWhile_eq_self_iff]
  intro x hx
  have hd := List.all_eq_true.mp h x hx
  have hne : x ≠ '\n' := fun e => by rw [e] at hd; exact absurd hd (by decide)
  simpa using hne

lemma msgStartMatch_content {l : List Char} {g : MsgGroups}
    (h : msgStartMatch l = some g) : g.content.all isDotChar = true := by
  unfold msgStartMatch at h
  repeat' first
    | (split at h)
    | (cases h)
  all_goals exact List.all_takeWhile

lemma aggStep_cont (acc : List ChatParticipant) (c : Message) (x : String) :
    aggStep acc { c with content := c.content ++ "\n" ++ x } = aggStep acc c := by
  simp [aggStep, qualMsg, firstSeg_append]

lemma aggParts_concat (ms : List Message) (m : Message) :
    aggParts (ms ++ [m]) = aggStep (aggParts ms) m := by
  simp [aggParts, List.foldl_append]

lemma runLines_parts (my : Option String) : ∀ (lines : List (List Char)) (i : Nat) (st : PState),
    st.parts = aggParts (finalMsgs st) →
    (runLines my i lines st).parts = aggParts (finalMsgs (runLines my i lines st)) := by
  intro lines
  induction lines with
  | nil => intro i st h; simpa [runLines] using h
  | cons l ls ih =>
    intro i st h
    rw [runLines_cons]
    apply ih
    cases he : (cleanLine l).isEmpty
    · cases hq : msgStartMatch (cleanLine l) with
      | none =>
        cases hc : st.cur with
        | none => rw [processLine_cont_none my i l st he hq hc]; exact h
        | some c =>
          rw [processLine_cont_some my i l st c he hq hc]
          have hfin : finalMsgs st = st.msgs ++ [c] := by simp [finalMsgs, hc]
          simp only [finalMsgs, Option.toList]
          rw [aggParts_concat, aggStep_cont, ← aggParts_concat, ← hfin]
          exact h
      | some g =>
        rw [processLine_start my i l st g he hq]
        have hfs : firstSeg (buildMessage i g my).content = String.mk g.content := by
          rw [show (buildMessage i g my).content = String.mk g.content from rfl,
              firstSeg_of_dot (msgStartMatch_content hq)]
        simp only [finalMsgs, Option.toList_some]
        rw [aggParts_concat,
            show ((st.msgs ++ st.cur.toList) : List Message) = finalMsgs st from rfl, ← h]
        simp only [aggStep, hfs]
    · rw [processLine_empty my i l st he]
      exact h

lemma aggStep_pos {m : Message} (hq : qualMsg m = true) (acc : List ChatParticipant) :
    aggStep acc m = pUpsert acc m.sender (firstSeg m.content) m.timestamp := by
  simp [aggStep, hq]

lemma aggStep_neg {m : Message} (hq : qualMsg m = false) (acc : List ChatParticipant) :
    aggStep acc m = acc := by
  simp [aggStep, hq]

lemma beq_false_symm {a b : String} (h : (a == b) = false) : (b == a) = false := by
  simp only [beq_eq_false_iff_ne, ne_eq] at h ⊢
  exact fun e => h e.symm

lemma any_name_false {acc : List ChatParticipant} {n : String}
    (hex : acc.any (fun p => p.name == n) = false) :
    ∀ p ∈ acc, (p.name == n) = false := by
  intro p hp
  cases hb : (p.name == n)
  · rfl
  · exfalso
    have : acc.any (fun p => p.name == n) = true := by
      rw [List.any_eq_true]
      exact ⟨p, hp, hb⟩
    rw [this] at hex
    cases hex

lemma any_name_mem {acc : List ChatParticipant} {n : String}
    (hex : acc.any (fun p => p.name == n) = true) :
    n ∈ acc.map (fun p => p.name) := by
  rw [List.any_eq_true] at hex
  rcases hex with ⟨p, hp, hb⟩
  have hn : p.name = n := by simpa using hb
  exact hn ▸ List.mem_map_of_mem _ hp

lemma pUpsert_names_eq (acc : List ChatParticipant) (n lm : String) (d : JsDate)
    (hex : acc.any (fun p => p.name == n) = true) :
    (pUpsert acc n lm d).map (fun p => p.name) = acc.map (fun p => p.name) := by
  simp only [pUpsert, hex, if_true]
  rw [List.map_map]
  apply List.map_congr_left
  intro p _
  simp only [Function.comp_apply]
  split <;> rfl

lemma pUpsert_names_append (acc : List ChatParticipant) (n lm : String) (d : JsDate)
    (hex : acc.any (fun p => p.name == n) = false) :
    (pUpsert acc n lm d).map (fun p => p.name) = acc.map (fun p => p.name) ++ [n] := by
  simp [pUpsert, hex]

lemma aggParts_names_nodup (ms : List Message) :
    ((aggParts ms).map (fun p => p.name)).Nodup := by
  induction ms using List.reverseRecOn with
  | nil => simp [aggParts]
  | append_singleton ms m ih =>
    rw [aggParts_concat]
    cases hq : qualMsg m
    · rw [aggStep_neg hq]
      exact ih
    · rw [aggStep_pos hq]
      cases hex : (aggParts ms).any (fun p => p.name == m.sender)
      · rw [pUpsert_names_append _ _ _ _ hex]
        have hnm : m.sender ∉ (aggParts ms).map (fun p => p.name) := by
          intro hmem
          rcases List.mem_map.mp hmem with ⟨p, hp, hpn⟩
          have := any_name_false hex p hp
          rw [hpn] at this
          simp at this
        simp [List.nodup_append, ih, hnm]
      · rw [pUpsert_names_eq _ _ _ _ hex]
        exact ih

lemma aggParts_names_mem (ms : List Message) (n : String) :
    n ∈ (aggParts ms).map (fun p => p.name) ↔
      n ∈ (ms.filter qualMsg).map (fun m => m.sender) := by
  induction ms using List.reverseRecOn with
  | nil => simp [aggParts]
  | append_singleton ms m ih =>
    rw [aggParts_concat]
    cases hq : qualMsg m
    · rw [aggStep_neg hq]
      have hfil : (ms ++ [m]).filter qualMsg = ms.filter qualMsg := by
        simp [List.filter_append, hq]
      rw [hfil]
      exact ih
    · rw [aggStep_pos hq]
      have hfil : (ms ++ [m]).filter qualMsg = ms.filter qualMsg ++ [m] := by
        simp [List.filter_append, hq]
      rw [hfil, List.map_append]
      cases hex : (aggParts ms).any (fun p => p.name == m.sender)
      · rw [pUpsert_names_append _ _ _ _ hex]
        simp only [List.mem_append, List.map_cons, List.map_nil, List.mem_singleton, ih]
      · rw [pUpsert_names_eq _ _ _ _ hex]
        have hsen := any_name_mem hex
        simp only [List.mem_append, List.map_cons, List.map_nil, List.mem_singleton]
        constructor
        · intro hn
          exact Or.inl (ih.mp hn)
        · rintro (hn | rfl)
          · exact ih.mpr hn
          · exact hsen

lemma filter_sender_concat_ne {n : String} {m : Message} (hne : (m.sender == n) = false)
    (ls : List Message) :
    (ls ++ [m]).filter (fun m2 => m2.sender == n) = ls.filter (fun m2 => m2.sender == n) := by
  rw [List.filter_append]
  simp [List.filter_cons, hne]

lemma filter_sender_concat_eq {n : String} {m : Message} (heq : (m.sender == n) = true)
    (ls : List Message) :
    (ls ++ [m]).filter (fun m2 => m2.sender == n)
      = ls.filter (fun m2 => m2.sender == n) ++ [m] := by
  rw [List.filter_append]
  simp [List.filter_cons, heq]

lemma aggParts_entries (ms : List Message) : ∀ p ∈ aggParts ms,
    p.avatarColor = getRandomColor p.name ∧
    ∃ m, ((ms.filter qualMsg).filter (fun m2 => m2.sender == p.name)).getLast? = some m ∧
      p.lastMessage = firstSeg m.content ∧ p.lastMessageDate = m.timestamp := by
  induction ms using List.reverseRecOn with
  | nil => simp [aggParts]
  | append_singleton ms m ih =>
    rw [aggParts_concat]
    cases hq : qualMsg m
    · rw [aggStep_neg hq]
      have hfil : (ms ++ [m]).filter qualMsg = ms.filter qualMsg := by
        simp [List.filter_append, hq]
      rw [hfil]
      exact ih
    · rw [aggStep_pos hq]
      have hfil : (ms ++ [m]).filter qualMsg = ms.filter qualMsg ++ [m] := by
        simp [List.filter_append, hq]
      rw [hfil]
      cases hex : (aggParts ms).any (fun p => p.name == m.sender)
      · simp only [pUpsert, hex, Bool.false_eq_true, if_false]
        intro p hp
        rcases List.mem_append.mp hp with hin | hnew
        · obtain ⟨hcol, m', hlast, hmsg, hdate⟩ := ih p hin
          refine ⟨hcol, m', ?_, hmsg, hdate⟩
          have hne : (m.sender == p.name) = false := by
            apply beq_false_symm
            exact any_name_false hex p hin
          rw [filter_sender_concat_ne hne]
          exact hlast
        · have hpn : p = ⟨m.sender, firstSeg m.content, m.timestamp,
              getRandomColor m.sender⟩ := by
            simpa using hnew
          subst hpn
          refine ⟨rfl, m, ?_, rfl, rfl⟩
          rw [filter_sender_concat_eq (by simp), List.getLast?_concat]
      · simp only [pUpsert, hex, if_true]
        intro p' hp'
        rcases List.mem_map.mp hp' with ⟨p, hp, rfl⟩
        by_cases hpn : (p.name == m.sender) = true
        · rw [if_pos hpn]
          have hnm : p.name = m.sender := by simpa using hpn
          obtain ⟨hcol, _⟩ := ih p hp
          refine ⟨hcol, m, ?_, rfl, rfl⟩
          have hsy : (m.sender == p.name) = true := by
            rw [hnm]
            simp
          rw [filter_sender_concat_eq hsy, List.getLast?_concat]
        · rw [if_neg hpn]
          obtain ⟨hcol, m', hlast, hmsg, hdate⟩ := ih p hp
          refine ⟨hcol, m', ?_, hmsg, hdate⟩
          have hne2 : (m.sender == p.name) = false := by
            apply beq_false_symm
            simpa using hpn
          rw [filter_sender_concat_ne hne2]
          exact hlast

lemma insertByTime_perm (p : ChatParticipant) :
    ∀ l : List ChatParticipant, List.Perm (insertByTime p l) (p :: l) := by
  intro l
  induction l with
  | nil => rfl
  | cons q qs ih =>
    simp only [insertByTime]
    split
    · exact (ih.cons q).trans (List.Perm.swap p q qs)
    · rfl

lemma sortParts_perm : ∀ l : List ChatParticipant, List.Perm (sortParts l) l := by
  intro l
  induction l with
  | nil => rfl
  | cons p ps ih => exact (insertByTime_perm p (sortParts ps)).trans (ih.cons p)

/-- C7: the participant list holds exactly one entry per distinct sender of
a non-self, non-system message (no duplicates, and a name appears iff some
qualifying message has it); every entry's `avatarColor` is the deterministic
colour of its name, fixed at creation; and its `lastMessage`/
`lastMessageDate` are the start-line content (the content truncated at the
first newline, i.e. before continuation lines were appended) and timestamp
of the LAST qualifying message of that sender in input order — each
qualifying message overwrites the entry unconditionally, with no timestamp
comparison. -/
theorem claim_c7 : ∀ (text : String) (z : Option Unit) (my : Option String),
    ((parseChatFile text z my).participants.map (fun p => p.name)).Nodup ∧
    (∀ n : String, n ∈ (parseChatFile text z my).participants.map (fun p => p.name) ↔
        n ∈ ((parseChatFile text z my).messages.filter qualMsg).map (fun m => m.sender)) ∧
    (∀ p ∈ (parseChatFile text z my).participants,
      p.avatarColor = getRandomColor p.name ∧
      ∃ m, (((parseChatFile text z my).messages.filter qualMsg).filter
              (fun m2 => m2.sender == p.name)).getLast? = some m ∧
        p.lastMessage = firstSeg m.content ∧ p.lastMessageDate = m.timestamp) := by
  intro text z my
  have hparts : (runLines my 0 (splitOnChar '\n' text.data) ⟨none, [], [], []⟩).parts
      = aggParts (finalMsgs (runLines my 0 (splitOnChar '\n' text.data) ⟨none, [], [], []⟩)) :=
    runLines_parts my (splitOnChar '\n' text.data) 0 ⟨none, [], [], []⟩ rfl
  have hmsgs : (parseChatFile text z my).messages
      = finalMsgs (runLines my 0 (splitOnChar '\n' text.data) ⟨none, [], [], []⟩) := rfl
  have hps : (parseChatFile text z my).participants
      = sortParts (runLines my 0 (splitOnChar '\n' text.data) ⟨none, [], [], []⟩).parts := rfl
  refine ⟨?_, ?_, ?_⟩
  · rw [hps, hparts]
    exact (((sortParts_perm _).map _).nodup_iff).mpr (aggParts_names_nodup _)
  · intro n
    rw [hps, hparts, hmsgs]
    rw [((sortParts_perm _).map (fun p => p.name)).mem_iff]
    exact aggParts_names_mem _ n
  · intro p hp
    rw [hps, hparts] at hp
    have hp2 := (sortParts_perm _).mem_iff.mp hp
    rw [hmsgs]
    exact aggParts_entries _ p hp2

/-- C7 witness: `claim_c7` applied to the two-sender parse, at the concrete
participant entry for Bob. -/
theorem claim_c7_witness :
    (⟨"Bob", "Hi", ⟨some 2024, some 11, some 28, 14, 6, 0⟩,
        getRandomColor "Bob"⟩ : ChatParticipant).avatarColor = getRandomColor "Bob" :=
  ((claim_c7 "[28.11.2024 14:05:00] Alice: Hello\nworld\n[28.11.2024 14:06:00] Bob: Hi"
      none none).2.2 _ (by decide)).1

end WaParse
